import Mathlib

/-!
Verification of the trigger-streak bot (`bot/config.py`, `bot/detect.py`,
`bot/db.py`) against its natural-language specification.

The Python sources are shallowly embedded: strings are `String`/`List Char`,
timestamps are integer seconds (`Nat`), Python `int` is `Int`/`Nat` as
appropriate, fallible lookups are `Option`, and the SQLite tables behind the
event store are explicit Lean lists.  Every definition follows the
corresponding Python function statement by statement; loops that consume a
variable number of characters per iteration carry an explicit fuel counter
standing for the remaining loop iterations (the Python `while i < len(word)`
index), initialised so that it never runs out.
-/

namespace GigachatBot

/-! ## Character and string primitives

Python `str.lower`, `str.strip`, slicing and the character classes used by
the sources, modelled for the two core scripts (Latin and Cyrillic) that the
repository handles. -/

/-- The apostrophe character, kept out of string literals. -/
def apos : Char := Char.ofNat 39

/-- Python `str.isspace` on the whitespace characters relevant here
(space, tab, newline, carriage return, form feed, vertical tab). -/
def isSpaceChar (c : Char) : Bool :=
  c = ' ' || c = '\t' || c = '\n' || c = '\x0d' || c = '\x0c' || c = '\x0b'

/-- Python `str.lower`, character-wise, for ASCII Latin and the Cyrillic
range used by the bot (А-Я → а-я, Ё → ё); other characters are unchanged. -/
def lowerChar (c : Char) : Char :=
  if 'A' ≤ c ∧ c ≤ 'Z' then Char.ofNat (c.toNat + 32)
  else if 'А' ≤ c ∧ c ≤ 'Я' then Char.ofNat (c.toNat + 32)
  else if c = 'Ё' then 'ё'
  else c

def lowerL (s : List Char) : List Char := s.map lowerChar

/-- Python `str.strip()` (drop leading and trailing whitespace). -/
def stripL (s : List Char) : List Char :=
  ((s.dropWhile isSpaceChar).reverse.dropWhile isSpaceChar).reverse

def lowerStr (s : String) : String := String.mk (lowerL s.data)

def stripStr (s : String) : String := String.mk (stripL s.data)

/-- `text.lower().strip()` — the body of `normalize_text` in `detect.py`. -/
def normalizeText (s : String) : String := stripStr (lowerStr s)

/-- Python slice `text[a:b]` (character-based, as Python strings are). -/
def sliceL (s : List Char) (a b : Nat) : List Char := (s.take b).drop a

def sliceStr (s : String) (a b : Nat) : String := String.mk (sliceL s.data a b)

/-! ## `format_duration` (`db.py` lines 177–194) -/

/-- Python `" ".join(parts)`. -/
def joinSpace : List String → String
  | [] => ""
  | [x] => x
  | x :: y :: rest => x ++ " " ++ joinSpace (y :: rest)

/-- `format_duration(seconds)` from `db.py`: human-readable duration.
Python integer floor division on a positive int agrees with `Nat` division
on `toNat`. -/
def formatDuration (seconds : Int) : String :=
  if seconds ≤ 0 then "0 минут"
  else
    let n := seconds.toNat
    let days := n / 86400
    let hours := (n % 86400) / 3600
    let minutes := (n % 3600) / 60
    let parts1 := if days > 0 then [toString days ++ " дн."] else []
    let parts2 := parts1 ++ (if hours > 0 then [toString hours ++ " ч."] else [])
    let parts3 :=
      parts2 ++ (if minutes > 0 ∨ parts2 = [] then [toString minutes ++ " мин."] else [])
    joinSpace parts3

/-! ## Trigger table and `remove_trigger_lemma` (`db.py` lines 843–870)

The per-chat `chat_triggers` SQLite table is a list of rows; the `DELETE …
WHERE value LIKE ?` statement is embedded through a faithful SQL `LIKE`
matcher (`%` = any sequence, `_` = any single character, ASCII
case-insensitive, as in SQLite's default `LIKE`). -/

/-- SQLite's ASCII-only case folding used by `LIKE`. -/
def asciiFold (c : Char) : Char :=
  if 'A' ≤ c ∧ c ≤ 'Z' then Char.ofNat (c.toNat + 32) else c

/-- SQL `LIKE` matching; the fuel counter bounds the recursion (each step
consumes at least one pattern or subject character, so
`pattern.length + subject.length + 1` fuel is always enough). -/
def likeAux : Nat → List Char → List Char → Bool
  | _, [], s => s.isEmpty
  | 0, _ :: _, _ => false
  | fuel + 1, p :: ps, s =>
    if p = '%' then
      likeAux fuel ps s ||
        (match s with
         | [] => false
         | _ :: s' => likeAux fuel ('%' :: ps) s')
    else
      match s with
      | [] => false
      | c :: s' => (p = '_' || asciiFold p = asciiFold c) && likeAux fuel ps s'

/-- `subject LIKE pattern` (SQLite semantics). -/
def sqlLike (pattern subject : List Char) : Bool :=
  likeAux (pattern.length + subject.length + 1) pattern subject

/-- The `trigger_type` column of `chat_triggers` (`'lemma'` or `'regex'`). -/
inductive TriggerType
  | lemmaT
  | regexT
  deriving DecidableEq, Repr

/-- One row of the per-chat `chat_triggers` table. -/
structure TrigRow where
  ttype : TriggerType
  value : String
  enabled : Bool
  deriving DecidableEq, Repr

/-- `remove_trigger_lemma(chat_id, lemma)` restricted to one chat's rows:
deletes the lemma row, and — only if one was deleted — every regex row whose
`value LIKE '{lemma}_%'`; returns the remaining rows and the `deleted` flag. -/
def removeTriggerLemma (rows : List TrigRow) (lemma0 : String) :
    List TrigRow × Bool :=
  let lem := stripStr (lowerStr lemma0)
  let deleted := rows.any (fun r => r.ttype = TriggerType.lemmaT ∧ r.value = lem)
  let rows1 := rows.filter (fun r => ¬(r.ttype = TriggerType.lemmaT ∧ r.value = lem))
  let rows2 :=
    if deleted then
      rows1.filter (fun r =>
        ¬(r.ttype = TriggerType.regexT ∧ sqlLike (lem.data ++ ['_', '%']) r.value.data))
    else rows1
  (rows2, deleted)

/-! ## Exclusion filter (`config.py` lines 537–555, `detect.py` lines 133–147)

The three exclusion regexes are embedded as decidable matchers over the
normalized message.  `\w` (with `re.UNICODE`) is modelled for the two core
scripts: ASCII alphanumerics, underscore, and the Cyrillic block
U+0400–U+04FF. -/

def isWordCharB (c : Char) : Bool :=
  c.isAlphanum || c = '_' || (0x400 ≤ c.toNat && c.toNat ≤ 0x4FF)

/-- Maximal runs of characters satisfying `p`, with their `[start, end)`
offsets — the spans a `\b<cls>+\b` regex can match. -/
def charRunsGo (p : Char → Bool) : List Char → Nat → Option Nat → List (Nat × Nat)
  | [], _, none => []
  | [], i, some st => [(st, i)]
  | c :: rest, i, none =>
    if p c then charRunsGo p rest (i + 1) (some i) else charRunsGo p rest (i + 1) none
  | c :: rest, i, some st =>
    if p c then charRunsGo p rest (i + 1) (some st)
    else (st, i) :: charRunsGo p rest (i + 1) none

def charRuns (p : Char → Bool) (s : List Char) : List (Nat × Nat) :=
  charRunsGo p s 0 none

/-- The character class `["'«»]` of the `quotation` exclusion pattern.
Note: no curly quotes appear in the class. -/
def isQuoteChar (c : Char) : Bool :=
  c = '"' || c = apos || c = '«' || c = '»'

/-- `.` of an un-DOTALL Python regex: any character except newline. -/
def dotNoNewline (s : List Char) (a b : Nat) : Bool :=
  (sliceL s a b).all (fun c => c ≠ '\n')

/-- Search semantics of `["'«»].{0,100}\b\w+\b.{0,100}["'«»]`: some maximal
word-character run lies strictly between two class characters, within 100
newline-free characters of each.  (`\b\w+\b` can only match a maximal run:
a shorter sub-run has a word character on its open side, so `\b` fails.) -/
def quotationMatch (s : List Char) : Bool :=
  (charRuns isWordCharB s).any fun r =>
    ((List.range r.1).any fun q1 =>
      isQuoteChar (s.getD q1 ' ') && (r.1 - (q1 + 1) ≤ 100) &&
        dotNoNewline s (q1 + 1) r.1) &&
    ((List.range s.length).any fun q2 =>
      (r.2 ≤ q2) && isQuoteChar (s.getD q2 ' ') && (q2 - r.2 ≤ 100) &&
        dotNoNewline s r.2 q2)

/-- Search semantics of `https?://\S+`. -/
def urlMatch (s : List Char) : Bool :=
  let charIs := fun (i : Nat) (c : Char) => s.get? i = some c
  let nonSpaceAt := fun (i : Nat) =>
    match s.get? i with
    | some c => !isSpaceChar c
    | none => false
  let sepAt := fun (j : Nat) =>
    charIs j ':' && charIs (j + 1) '/' && charIs (j + 2) '/' && nonSpaceAt (j + 3)
  (List.range s.length).any fun i =>
    charIs i 'h' && charIs (i + 1) 't' && charIs (i + 2) 't' && charIs (i + 3) 'p' &&
      ((charIs (i + 4) 's' && sepAt (i + 5)) || sepAt (i + 4))

/-- Search semantics of `^/(triggers|words|help|counter|leaderboard)\b`. -/
def commandMatch (s : List Char) : Bool :=
  match s with
  | '/' :: rest =>
    ["triggers", "words", "help", "counter", "leaderboard"].any fun w =>
      w.data.isPrefixOf rest &&
        (match rest.get? w.length with
         | some c => !isWordCharB c
         | none => true)
  | _ => false

/-- One entry of `EXCLUSION_PATTERNS` after compilation. -/
structure ExclusionRule where
  name : String
  matchesText : List Char → Bool
  enabled : Bool

/-- `EXCLUSION_PATTERNS`, in source order. -/
def exclusionPatterns : List ExclusionRule :=
  [⟨"quotation", quotationMatch, true⟩,
   ⟨"url", urlMatch, true⟩,
   ⟨"command_mention", commandMatch, true⟩]

def checkExclusionsGo (normalized : List Char) :
    List ExclusionRule → Bool × Option String
  | [] => (false, none)
  | r :: rest =>
    if r.enabled then
      if r.matchesText normalized then (true, some r.name)
      else checkExclusionsGo normalized rest
    else checkExclusionsGo normalized rest

/-- `check_exclusions(text)`: first matching exclusion rule wins, over the
normalized whole message. -/
def checkExclusions (text : String) : Bool × Option String :=
  checkExclusionsGo (normalizeText text).data exclusionPatterns

/-! ## Detection engine (`detect.py`)

`pymorphy3` is an external lemmatizer capability, passed in as
`getLemma : String → String` (the contract of §6, failure already folded to
identity by `get_lemma`).  Compiled regex scanning over the normalized text is
passed in as `finder : ruleName → normalizedText → list of (start, end)
non-overlapping match spans`, abstracting `get_compiled_pattern` +
`Pattern.finditer`; a rule whose pattern does not compile contributes no
spans. -/

/-- Token characters of `TOKEN_PATTERN = [а-яёa-z]+` (matched against the
lowercased text). -/
def isTokenChar (c : Char) : Bool :=
  ('a' ≤ c && c ≤ 'z') || ('а' ≤ c && c ≤ 'я') || c = 'ё'

/-- `tokenize(text)`: maximal token runs of `text.lower()` with offsets. -/
def tokenizeT (text : String) : List (String × Nat × Nat) :=
  let low := lowerL text.data
  (charRuns isTokenChar low).map fun r => (String.mk (sliceL low r.1 r.2), r.1, r.2)

inductive MatchTypeM
  | lemmaM
  | regexM
  deriving DecidableEq, Repr

/-- `MatchDetail` from `detect.py`. -/
structure MatchDetail where
  matchType : MatchTypeM
  originalText : String
  matchedFragment : String
  lemmaVal : Option String
  ruleName : Option String
  positionStart : Nat
  positionEnd : Nat
  deriving DecidableEq, Repr

/-- `DetectionResult` from `detect.py`. -/
structure DetectionResult where
  triggered : Bool
  matchesL : List MatchDetail
  excluded : Bool
  exclusionReason : Option String
  deriving DecidableEq, Repr

/-- `detect_by_lemmas(text, trigger_lemmas)`: one match per token whose
lemma is in the trigger set; `original_text = text[start:end]` of the
original text. -/
def detectByLemmas (getLemma : String → String) (text : String)
    (triggerLemmas : List String) : List MatchDetail :=
  (tokenizeT text).filterMap fun t =>
    let lem := getLemma t.1
    if lem ∈ triggerLemmas then
      some ⟨MatchTypeM.lemmaM, sliceStr text t.2.1 t.2.2, t.1, some lem, none,
            t.2.1, t.2.2⟩
    else none

/-- `detect_by_regex(text, enabled_rules)`: scans the *normalized* text but
slices `original_text` out of the *original* text with the same offsets. -/
def detectByRegex (finder : String → String → List (Nat × Nat)) (text : String)
    (enabledRules : List (String × Bool)) : List MatchDetail :=
  let normalized := normalizeText text
  (enabledRules.filter (·.2)).flatMap fun rn =>
    (finder rn.1 normalized).map fun sp =>
      ⟨MatchTypeM.regexM, sliceStr text sp.1 sp.2, sliceStr normalized sp.1 sp.2,
       none, some rn.1, sp.1, sp.2⟩

/-- Stable insertion placing `m` after every element whose start offset is
not greater — together with the left fold below this reproduces the result
of Python's stable `list.sort(key=position_start)`. -/
def insertByPos (m : MatchDetail) : List MatchDetail → List MatchDetail
  | [] => [m]
  | x :: xs =>
    if x.positionStart ≤ m.positionStart then x :: insertByPos m xs
    else m :: x :: xs

def sortByPos (l : List MatchDetail) : List MatchDetail :=
  l.foldl (fun acc m => insertByPos m acc) []

/-- `detect_triggers(text, trigger_lemmas, regex_rules_enabled)`. -/
def detectTriggers (getLemma : String → String)
    (finder : String → String → List (Nat × Nat)) (text : String)
    (triggerLemmas : List String) (regexRulesEnabled : List (String × Bool)) :
    DetectionResult :=
  if text.data = [] ∨ stripL text.data = [] then ⟨false, [], false, none⟩
  else
    let exc := checkExclusions text
    if exc.1 then ⟨false, [], true, exc.2⟩
    else
      let lemmaMatches := detectByLemmas getLemma text triggerLemmas
      let regexMatches := detectByRegex finder text regexRulesEnabled
      let existingPositions := lemmaMatches.map fun m => (m.positionStart, m.positionEnd)
      let allMatches := lemmaMatches ++ regexMatches.filter fun rm =>
        (rm.positionStart, rm.positionEnd) ∉ existingPositions
      let sorted := sortByPos allMatches
      ⟨!sorted.isEmpty, sorted, false, none⟩

/-- The `finditer` oracle used for the C4 failing input: the compiled
pattern of rule `test_spaced` (an optional-separator chain of
lookalike classes for `t`, `e`, `s`, `t`) finds exactly the span `(0, 4)`
in the normalized text `"test"`. -/
def finderSpacedTest : String → String → List (Nat × Nat) := fun rn s =>
  if rn = "test_spaced" ∧ s = "test" then [(0, 4)] else []


/-! ## Evasion pattern generator (`config.py` lines 40–523)

The transliteration tables, the lookalike table and
`generate_regex_variants_for_word` with its helpers, embedded verbatim.
Pattern specifications are kept as the raw regex source strings the Python
code builds (`\u` escapes in the Python raw strings stay as backslash
sequences). -/

/-- The apostrophe as a one-character string (value of the `ъ`/`ь` rows). -/
def aposS : String := String.mk [apos]

/-- `TRANSLIT_RU_TO_EN` (single-character keys); a Python plain-string value
is the singleton list. -/
def translitRuToEn : List Char → Option (List String)
  | ['а'] => some ["a"]
  | ['б'] => some ["b"]
  | ['в'] => some ["v"]
  | ['г'] => some ["g"]
  | ['д'] => some ["d"]
  | ['е'] => some ["e", "ye"]
  | ['ё'] => some ["yo", "e"]
  | ['ж'] => some ["zh"]
  | ['з'] => some ["z"]
  | ['и'] => some ["i"]
  | ['й'] => some ["y", "i", "j"]
  | ['к'] => some ["k"]
  | ['л'] => some ["l"]
  | ['м'] => some ["m"]
  | ['н'] => some ["n"]
  | ['о'] => some ["o"]
  | ['п'] => some ["p"]
  | ['р'] => some ["r"]
  | ['с'] => some ["s"]
  | ['т'] => some ["t"]
  | ['у'] => some ["u"]
  | ['ф'] => some ["f"]
  | ['х'] => some ["kh", "h"]
  | ['ц'] => some ["ts", "c"]
  | ['ч'] => some ["ch"]
  | ['ш'] => some ["sh"]
  | ['щ'] => some ["shch", "sch"]
  | ['ъ'] => some ["", aposS]
  | ['ы'] => some ["y"]
  | ['ь'] => some ["", aposS]
  | ['э'] => some ["e"]
  | ['ю'] => some ["yu", "u"]
  | ['я'] => some ["ya", "ia"]
  | ['ә'] => some ["a"]
  | ['ғ'] => some ["g"]
  | ['қ'] => some ["q"]
  | ['ң'] => some ["ng"]
  | ['ө'] => some ["o"]
  | ['ұ'] => some ["u"]
  | ['ү'] => some ["u"]
  | ['һ'] => some ["h"]
  | ['і'] => some ["i"]
  | _ => none

/-- `TRANSLIT_EN_TO_RU` (one- to four-character keys). -/
def translitEnToRu : List Char → Option (List String)
  | ['a'] => some ["а"]
  | ['b'] => some ["б"]
  | ['c'] => some ["ц", "к", "с"]
  | ['d'] => some ["д"]
  | ['e'] => some ["е", "э"]
  | ['f'] => some ["ф"]
  | ['g'] => some ["г"]
  | ['h'] => some ["х"]
  | ['i'] => some ["и", "і"]
  | ['j'] => some ["й"]
  | ['k'] => some ["к"]
  | ['l'] => some ["л"]
  | ['m'] => some ["м"]
  | ['n'] => some ["н"]
  | ['o'] => some ["о"]
  | ['p'] => some ["п"]
  | ['q'] => some ["к"]
  | ['r'] => some ["р"]
  | ['s'] => some ["с"]
  | ['t'] => some ["т"]
  | ['u'] => some ["у"]
  | ['v'] => some ["в"]
  | ['w'] => some ["в"]
  | ['x'] => some ["кс"]
  | ['y'] => some ["й", "ы", "и"]
  | ['z'] => some ["з"]
  | ['z', 'h'] => some ["ж"]
  | ['k', 'h'] => some ["х"]
  | ['t', 's'] => some ["ц"]
  | ['c', 'h'] => some ["ч"]
  | ['s', 'h'] => some ["ш"]
  | ['s', 'h', 'c', 'h'] => some ["щ"]
  | ['s', 'c', 'h'] => some ["щ"]
  | ['y', 'u'] => some ["ю"]
  | ['y', 'a'] => some ["я"]
  | ['y', 'o'] => some ["ё"]
  | ['y', 'e'] => some ["е"]
  | ['i', 'a'] => some ["я"]
  | _ => none

/-- `LOOKALIKE_MAP`: per (lowercased) character, the regex character class
of confusables, copied from the source. -/
def lookalikeMap : Char → Option String
  | 'a' => some "[aаӑӓӓӓ@4]"
  | 'b' => some "[bбвЬ6]"
  | 'c' => some "[cсϲⅽ]"
  | 'd' => some "[dԁд]"
  | 'e' => some "[eеёӗӗ3€]"
  | 'g' => some "[gԍг]"
  | 'h' => some "[hһҺ]"
  | 'i' => some "[iіїӏ1!|иі]"
  | 'j' => some "[jјј]"
  | 'k' => some "[kкқҚ]"
  | 'l' => some "[lӏ1|л]"
  | 'm' => some "[mмӎ]"
  | 'n' => some "[nпҥҢ]"
  | 'o' => some "[oоөӨ0]"
  | 'p' => some "[pрр]"
  | 'q' => some "[qԛ]"
  | 'r' => some "[rгrр]"
  | 's' => some "[sѕs5$с]"
  | 't' => some "[tтҭ]"
  | 'u' => some "[uүұӯу]"
  | 'v' => some "[vѵνв]"
  | 'w' => some "[wԝ]"
  | 'x' => some "[xхҳ×]"
  | 'y' => some "[yуўӱ]"
  | 'z' => some "[z3з]"
  | 'а' => some "[aаӑӓӓӓ@4]"
  | 'б' => some "[б6bв]"
  | 'в' => some "[вbv]"
  | 'г' => some "[гrg]"
  | 'д' => some "[дgd]"
  | 'е' => some "[eеёӗӗ3€]"
  | 'ё' => some "[eеёӗӗ3€yo]"
  | 'ж' => some "[жzh]"
  | 'з' => some "[з3z]"
  | 'и' => some "[иuiі1]"
  | 'й' => some "[ийyij]"
  | 'к' => some "[кkқҚ]"
  | 'л' => some "[лl]"
  | 'м' => some "[мm]"
  | 'н' => some "[нn]"
  | 'о' => some "[oоөӨ0]"
  | 'п' => some "[пnp]"
  | 'р' => some "[рpr]"
  | 'с' => some "[сcs]"
  | 'т' => some "[тt]"
  | 'у' => some "[уuy]"
  | 'ф' => some "[фf]"
  | 'х' => some "[хxh]"
  | 'ц' => some "[цtsc]"
  | 'ч' => some "[ч4ch]"
  | 'ш' => some "[шsh]"
  | 'щ' => some "[щshch]"
  | 'ъ' => some "[ъ]"
  | 'ы' => some "[ыy]"
  | 'ь' => some "[ьb]"
  | 'э' => some "[э3e]"
  | 'ю' => some "[юyu]"
  | 'я' => some "[яyaia]"
  | 'ә' => some "[ә]"
  | 'ғ' => some "[ғg]"
  | 'қ' => some "[қkкkq]"
  | 'ң' => some "[ңnng]"
  | 'ө' => some "[өoо0]"
  | 'ұ' => some "[ұu]"
  | 'ү' => some "[үu]"
  | 'һ' => some "[һh]"
  | 'і' => some "[іi1|]"
  | _ => none

/-- The characters Python 3.7+ `re.escape` escapes (the regex
special-character set of CPython's `_special_chars_map`). -/
def reSpecials : List Char :=
  ['(', ')', '[', ']', Char.ofNat 123, Char.ofNat 125, '?', '*', '+', '-',
   '|', '^', '$', '\\', '.', '&', '~', '#', ' ', '\t', '\n', '\x0d',
   '\x0b', '\x0c']

def reEscapeChar (c : Char) : String :=
  if c ∈ reSpecials then String.mk ['\\', c] else String.mk [c]

/-- Python `re.escape`. -/
def reEscapeStr (s : String) : String :=
  (s.data.map reEscapeChar).foldl (· ++ ·) ""

/-- Python `sep.join(parts)`. -/
def joinSep (sep : String) : List String → String
  | [] => ""
  | [x] => x
  | x :: y :: rest => x ++ sep ++ joinSep sep (y :: rest)

/-- The shared option-emission logic of `_generate_translit_pattern`: drop
empty candidates; one candidate is escaped literally, several become a
non-capturing alternation, none contribute nothing. -/
def translitEmit (opts : List String) : String :=
  match opts.filter (fun o => o ≠ "") with
  | [] => ""
  | [o] => reEscapeStr o
  | os => "(?:" ++ joinSep "|" (os.map reEscapeStr) ++ ")"

/-- `word[i:i+length].lower() in translit_map` for one candidate length. -/
def translitLookupLen (tmap : List Char → Option (List String))
    (w : List Char) (len : Nat) : Option (List String) :=
  if len ≤ w.length then tmap (lowerL (w.take len)) else none

/-- The greedy multi-character lookup: lengths 4, 3, 2 in that order. -/
def translitLookupMulti (tmap : List Char → Option (List String))
    (w : List Char) : Option (List String × Nat) :=
  match translitLookupLen tmap w 4 with
  | some o => some (o, 4)
  | none =>
    match translitLookupLen tmap w 3 with
    | some o => some (o, 3)
    | none =>
      match translitLookupLen tmap w 2 with
      | some o => some (o, 2)
      | none => none

/-- `_generate_translit_pattern`'s `while i < len(word)` loop; the fuel is
the remaining iteration count (each iteration consumes ≥ 1 character, so
`word.length` fuel never runs out). -/
def translitPatternGo (tmap : List Char → Option (List String)) :
    Nat → List Char → String
  | _, [] => ""
  | 0, _ :: _ => ""
  | fuel + 1, c :: rest =>
    match translitLookupMulti tmap (c :: rest) with
    | some (opts, len) =>
      translitEmit opts ++ translitPatternGo tmap fuel ((c :: rest).drop len)
    | none =>
      (match tmap [lowerChar c] with
       | some opts => translitEmit opts
       | none => reEscapeChar (lowerChar c)) ++ translitPatternGo tmap fuel rest

/-- `_generate_translit_pattern(word, translit_map)`. -/
def translitPatternOf (tmap : List Char → Option (List String))
    (w : String) : String :=
  translitPatternGo tmap w.data.length w.data

/-- `options[0] if options and options[0] else ''`. -/
def translitFirst (opts : List String) : String :=
  match opts with
  | [] => ""
  | o :: _ => o

/-- `_transliterate_word`'s loop (same greedy consumption, first option). -/
def transliterateGo (tmap : List Char → Option (List String)) :
    Nat → List Char → String
  | _, [] => ""
  | 0, _ :: _ => ""
  | fuel + 1, c :: rest =>
    match translitLookupMulti tmap (c :: rest) with
    | some (opts, len) =>
      translitFirst opts ++ transliterateGo tmap fuel ((c :: rest).drop len)
    | none =>
      (match tmap [lowerChar c] with
       | some opts => translitFirst opts
       | none => String.mk [lowerChar c]) ++ transliterateGo tmap fuel rest

/-- `_transliterate_word(word, translit_map)`. -/
def transliterateWord (tmap : List Char → Option (List String))
    (w : String) : String :=
  transliterateGo tmap w.data.length w.data

/-- The substitution table of `_generate_lookalike_example`. -/
def exampleSub (c : Char) : Option Char :=
  match c with
  | 'a' => some '@'
  | 'e' => some '3'
  | 'i' => some '1'
  | 'o' => some '0'
  | 's' => some '5'
  | 'а' => some 'a'
  | 'е' => some 'e'
  | 'о' => some 'o'
  | 'с' => some 'c'
  | 'р' => some 'p'
  | 'к' => some 'k'
  | 'х' => some 'x'
  | 'у' => some 'y'
  | 'в' => some 'b'
  | 'н' => some 'n'
  | _ => none

/-- `_generate_lookalike_example(word)`: substitute every second character;
fall back to `word.replace('o','0').replace('е','e')` if nothing changed. -/
def lookalikeExample (w : List Char) : String :=
  let ex := String.mk (w.enum.map fun ic =>
    if ic.1 % 2 = 1 then
      match exampleSub (lowerChar ic.2) with
      | some r => r
      | none => ic.2
    else ic.2)
  if ex ≠ String.mk w then ex
  else
    String.mk ((w.map fun c => if c = 'o' then '0' else c).map
      fun c => if c = 'е' then 'e' else c)

/-- Unicode NFD decomposition, as a static data asset restricted to the
precomposed characters of the two core scripts that actually decompose
(`ё`, `й` and their capitals; two Latin examples); all other characters are
their own decomposition. -/
def nfdChar (c : Char) : List Char :=
  if c = 'ё' then ['е', Char.ofNat 0x308]
  else if c = 'й' then ['и', Char.ofNat 0x306]
  else if c = 'Ё' then ['Е', Char.ofNat 0x308]
  else if c = 'Й' then ['И', Char.ofNat 0x306]
  else if c = 'é' then ['e', Char.ofNat 0x301]
  else if c = 'à' then ['a', Char.ofNat 0x300]
  else [c]

/-- Unicode category `Mn` for the marks the `nfdChar` table can produce
(the combining diacritical marks block). -/
def isCombiningMark (c : Char) : Bool :=
  0x300 ≤ c.toNat && c.toNat ≤ 0x36F

/-- `base_chars`: NFD-decompose and drop combining marks. -/
def nfdBaseChars (w : List Char) : List Char :=
  (w.flatMap nfdChar).filter fun c => !(isCombiningMark c)

/-- Lookalike class for a character, or its escape if it has no
confusables (`LOOKALIKE_MAP.get(char.lower(), re.escape(char))`). -/
def lookalikeOrEscape (c : Char) : String :=
  match lookalikeMap (lowerChar c) with
  | some cls => cls
  | none => reEscapeChar c

def hasLookalikeSubs (w : List Char) : Bool :=
  w.any fun c => (lookalikeMap (lowerChar c)).isSome

/-- `any('Ѐ' <= c <= 'ӿ' for c in word)`. -/
def isCyrillicWord (w : List Char) : Bool :=
  w.any fun c => 0x400 ≤ c.toNat && c.toNat ≤ 0x4FF

/-- `\b` as it appears in the raw pattern strings. -/
def bAnchor : String := "\\b"

/-- `r"[\s\.\-_]{0,3}"` — the spacing separator class. -/
def sepClass : String := "[\\s\\.\\-_]\x7b0,3\x7d"

/-- `f"{zw_chars}{{0,2}}"` with `zw_chars = r"[​‌‍⁠﻿]"`. -/
def zwClass : String := "[\\u200B\\u200C\\u200D\\u2060\\uFEFF]\x7b0,2\x7d"

/-- `r"[̀-ͯ]{0,3}"` — optional combining-diacritic run. -/
def marksClass : String := "[\\u0300-\\u036f]\x7b0,3\x7d"

/-- One generated rule dict of `generate_regex_variants_for_word`. -/
structure RuleVariant where
  name : String
  pattern : String
  description : String
  examples : List String
  enabled : Bool
  deriving DecidableEq, Repr

/-- `translit_word` for a (normalized) word: direction chosen by script. -/
def translitWordOf (w : String) : String :=
  if isCyrillicWord w.data then transliterateWord translitRuToEn w
  else transliterateWord translitEnToRu w

/-- Pattern 0: the transliteration variant (emitted only when the
transliteration pattern is non-empty). -/
def genTranslitPart (w : String) : List RuleVariant :=
  if isCyrillicWord w.data then
    let tp := translitPatternOf translitRuToEn w
    if tp ≠ "" then
      [⟨w ++ "_translit_en", bAnchor ++ tp ++ bAnchor,
        "Транслитерация " ++ aposS ++ w ++ aposS ++ " латиницей",
        [w, translitWordOf w], true⟩]
    else []
  else
    let tp := translitPatternOf translitEnToRu w
    if tp ≠ "" then
      [⟨w ++ "_translit_ru", bAnchor ++ tp ++ bAnchor,
        "Транслитерация " ++ aposS ++ w ++ aposS ++ " кириллицей",
        [w, translitWordOf w], true⟩]
    else []

/-- Pattern 1: multi-language lookalike substitution (emitted only when at
least one character has a lookalike class). -/
def genLookalikePart (w : String) : List RuleVariant :=
  if hasLookalikeSubs w.data then
    [⟨w ++ "_lookalike",
      bAnchor ++ (w.data.map lookalikeOrEscape).foldl (· ++ ·) "" ++ bAnchor,
      "Обход " ++ aposS ++ w ++ aposS ++ " через замену букв (RU/EN/KZ/leet)",
      [w, lookalikeExample w.data], true⟩]
  else []

/-- Pattern 2: spaced/separated characters (always emitted; not
boundary-anchored). -/
def genSpacedVariant (w : String) : RuleVariant :=
  ⟨w ++ "_spaced",
   joinSep sepClass (w.data.map lookalikeOrEscape),
   "Обход " ++ aposS ++ w ++ aposS ++ " через пробелы/разделители",
   [joinSep " " (w.data.map fun c => String.mk [c]), w], true⟩

/-- Pattern 3: zero-width character injection (always emitted). -/
def genZerowidthVariant (w : String) : RuleVariant :=
  ⟨w ++ "_zerowidth",
   bAnchor ++ joinSep zwClass (w.data.map lookalikeOrEscape) ++ bAnchor,
   "Обход " ++ aposS ++ w ++ aposS ++ " через невидимые символы",
   [w], true⟩

/-- Pattern 4: diacritics tolerance (emitted only when decomposition
changes the word and stays ≥ 3 characters). -/
def genDiacriticsPart (w : String) : List RuleVariant :=
  let baseChars := nfdBaseChars w.data
  if String.mk baseChars ≠ w ∧ 3 ≤ baseChars.length then
    [⟨w ++ "_diacritics",
      bAnchor ++
        (baseChars.map fun c => lookalikeOrEscape c ++ marksClass).foldl (· ++ ·) ""
        ++ bAnchor,
      "Обход " ++ aposS ++ w ++ aposS ++ " через диакритические знаки",
      [w, String.mk baseChars], true⟩]
  else []

/-- Pattern 5: transliteration × spacing and transliteration × zero-width
(emitted only when the transliterated spelling is ≥ 3 characters and
differs from the word). -/
def genMultimodalPart (w : String) : List RuleVariant :=
  let tw := translitWordOf w
  if 3 ≤ tw.data.length ∧ tw ≠ w then
    [⟨w ++ "_translit_spaced",
      joinSep sepClass (tw.data.map lookalikeOrEscape),
      "Транслитерация " ++ aposS ++ w ++ aposS ++ " с пробелами/заменами",
      [tw, joinSep " " (tw.data.map fun c => String.mk [c])], true⟩,
     ⟨w ++ "_translit_zerowidth",
      bAnchor ++ joinSep zwClass (tw.data.map lookalikeOrEscape) ++ bAnchor,
      "Транслитерация " ++ aposS ++ w ++ aposS ++ " с невидимыми символами",
      [tw], true⟩]
  else []

/-- `generate_regex_variants_for_word(word)`: lowercase + trim; an empty
list under 3 characters; otherwise the six pattern groups in source order. -/
def generateRegexVariantsForWord (word0 : String) : List RuleVariant :=
  let w := stripStr (lowerStr word0)
  if w.data.length < 3 then []
  else
    genTranslitPart w ++ genLookalikePart w ++
      [genSpacedVariant w, genZerowidthVariant w] ++
      genDiacriticsPart w ++ genMultimodalPart w

/-! ## Pattern compiler (`detect.py` lines 183–218)

`get_compiled_pattern` without the memoisation dictionary (the cache only
avoids recomputation; the cached value is exactly the value computed here on
first call).  Compilation of a found pattern spec is modelled as returning
the spec: every string `generate_regex_variants_for_word` emits is built
from well-formed class/alternation/escape fragments, so `re.compile`
succeeds on generator output; a rule name that is not found (or has no
separator) is the cached-`None` "absent" outcome. -/

/-- `rule_name.rsplit('_', 1)[0]` (callers guarantee a separator exists). -/
def rsplitBaseUnderscore (s : List Char) : List Char :=
  ((s.reverse.dropWhile (fun c => c ≠ '_')).drop 1).reverse

/-- `get_compiled_pattern(rule_name)`: split on the last `_`, regenerate the
base word's variants, return the pattern of the entry whose name matches. -/
def getCompiledPattern (ruleName : String) : Option String :=
  if '_' ∈ ruleName.data then
    match (generateRegexVariantsForWord
        (String.mk (rsplitBaseUnderscore ruleName.data))).find?
        (fun v => v.name = ruleName) with
    | some v => some v.pattern
    | none => none
  else none


/-! ## Event store and state projector (`db.py` lines 34–174, 436–625, 696–704)

Single-chat embedding of the SQLite-backed event engine: the `events` table
is an append-only list (the autoincrement id is modelled as the event's
position in the log, a dense strictly-increasing sequence), the
`chat_state` row is the `cache` field, timestamps are integer seconds.  The
opaque `match_details` dict carried by TRIGGER events is a type parameter
`MD` — the engine never inspects it.  The `tuple` returned by each Python
coroutine is returned alongside the updated store. -/

variable {MD : Type}

inductive EventTypeE
  | trigger
  | manualReset
  | undo
  deriving DecidableEq, Repr

/-- The kind-specific `details` payload of an event. -/
inductive EvDetails (MD : Type)
  | trig (payload : MD)
  | manual (reason : String)
  | undone (undoneEventIds : List Nat) (undoneCount : Nat)
  deriving DecidableEq

/-- `last_reset_details`: the TRIGGER match payload, or the
`{"type": "manual", "reason": …}` dict written by a manual reset. -/
inductive ResetDetails (MD : Type)
  | fromTrigger (payload : MD)
  | manual (reason : String)
  deriving DecidableEq

/-- `ChatState` (`db.py`); `chat_id` kept, timestamps as seconds. -/
structure ChatStateE (MD : Type) where
  chatId : Int
  streakStart : Option Nat
  bestStreakSeconds : Int
  bestStreakStart : Option Nat
  bestStreakEnd : Option Nat
  lastResetEventId : Option Nat
  lastResetUserId : Option Int
  lastResetUsername : Option String
  lastResetTimestamp : Option Nat
  lastResetDetails : Option (ResetDetails MD)
  totalResets : Int
  deriving DecidableEq

/-- `ChatState.default(chat_id)`. -/
def ChatStateE.defaultFor (MD : Type) (chatId : Int) : ChatStateE MD :=
  ⟨chatId, none, 0, none, none, none, none, none, none, none, 0⟩

/-- `get_current_streak_seconds()` at a given current time. -/
def ChatStateE.currentStreakSeconds (s : ChatStateE MD) (now : Nat) : Int :=
  match s.streakStart with
  | none => 0
  | some t => (now : Int) - (t : Int)

/-- The `snapshot` dict of `to_snapshot()`: every `ChatState` field except
`chat_id`. -/
structure SnapshotE (MD : Type) where
  streakStart : Option Nat
  bestStreakSeconds : Int
  bestStreakStart : Option Nat
  bestStreakEnd : Option Nat
  lastResetEventId : Option Nat
  lastResetUserId : Option Int
  lastResetUsername : Option String
  lastResetTimestamp : Option Nat
  lastResetDetails : Option (ResetDetails MD)
  totalResets : Int
  deriving DecidableEq

/-- `ChatState.to_snapshot()`. -/
def ChatStateE.toSnapshot (s : ChatStateE MD) : SnapshotE MD :=
  ⟨s.streakStart, s.bestStreakSeconds, s.bestStreakStart, s.bestStreakEnd,
   s.lastResetEventId, s.lastResetUserId, s.lastResetUsername,
   s.lastResetTimestamp, s.lastResetDetails, s.totalResets⟩

/-- `ChatState.from_snapshot(chat_id, snapshot)`. -/
def ChatStateE.fromSnapshot (chatId : Int) (sn : SnapshotE MD) : ChatStateE MD :=
  ⟨chatId, sn.streakStart, sn.bestStreakSeconds, sn.bestStreakStart,
   sn.bestStreakEnd, sn.lastResetEventId, sn.lastResetUserId,
   sn.lastResetUsername, sn.lastResetTimestamp, sn.lastResetDetails,
   sn.totalResets⟩

/-- `Event` (`db.py`). -/
structure EventE (MD : Type) where
  id : Nat
  chatId : Int
  eventType : EventTypeE
  userId : Int
  username : Option String
  messageId : Option Nat
  timestamp : Nat
  details : EvDetails MD
  snapshot : SnapshotE MD
  deriving DecidableEq

/-- One chat's durable state: the event log plus the cached `chat_state`
row. -/
structure StoreE (MD : Type) where
  log : List (EventE MD)
  cache : ChatStateE MD
  deriving DecidableEq

/-- A fresh chat: empty log, default state (what `get_chat_state` returns
before any row exists). -/
def StoreE.init (MD : Type) (chatId : Int) : StoreE MD :=
  ⟨[], ChatStateE.defaultFor MD chatId⟩

/-- `apply_trigger_event(chat_id, user_id, username, message_id,
match_details)` at time `now`.  Returns the updated store together with the
Python return tuple `(event, new_state, old_streak_seconds)`. -/
def applyTriggerEvent (cid : Int) (st : StoreE MD) (userId : Int)
    (username : Option String) (messageId : Nat) (matchDetails : MD)
    (now : Nat) : StoreE MD × EventE MD × ChatStateE MD × Int :=
  let oldState := st.cache
  let oldStreak := oldState.currentStreakSeconds now
  let ev : EventE MD :=
    ⟨st.log.length, cid, EventTypeE.trigger, userId, username, some messageId,
     now, EvDetails.trig matchDetails, oldState.toSnapshot⟩
  let newBestSeconds :=
    if oldStreak > oldState.bestStreakSeconds then oldStreak
    else oldState.bestStreakSeconds
  let newBestStart :=
    if oldStreak > oldState.bestStreakSeconds then oldState.streakStart
    else oldState.bestStreakStart
  let newBestEnd :=
    if oldStreak > oldState.bestStreakSeconds then some now
    else oldState.bestStreakEnd
  let newState : ChatStateE MD :=
    ⟨cid, some now, newBestSeconds, newBestStart, newBestEnd, some ev.id,
     some userId, username, some now,
     some (ResetDetails.fromTrigger matchDetails), oldState.totalResets + 1⟩
  (⟨st.log ++ [ev], newState⟩, ev, newState, oldStreak)

/-- `apply_manual_reset_event(chat_id, user_id, username, reason)`. -/
def applyManualResetEvent (cid : Int) (st : StoreE MD) (userId : Int)
    (username : Option String) (reason : String) (now : Nat) :
    StoreE MD × EventE MD × ChatStateE MD × Int :=
  let oldState := st.cache
  let oldStreak := oldState.currentStreakSeconds now
  let ev : EventE MD :=
    ⟨st.log.length, cid, EventTypeE.manualReset, userId, username, none,
     now, EvDetails.manual reason, oldState.toSnapshot⟩
  let newBestSeconds :=
    if oldStreak > oldState.bestStreakSeconds then oldStreak
    else oldState.bestStreakSeconds
  let newBestStart :=
    if oldStreak > oldState.bestStreakSeconds then oldState.streakStart
    else oldState.bestStreakStart
  let newBestEnd :=
    if oldStreak > oldState.bestStreakSeconds then some now
    else oldState.bestStreakEnd
  let newState : ChatStateE MD :=
    ⟨cid, some now, newBestSeconds, newBestStart, newBestEnd, some ev.id,
     some userId, username, some now, some (ResetDetails.manual reason),
     oldState.totalResets + 1⟩
  (⟨st.log ++ [ev], newState⟩, ev, newState, oldStreak)

/-- The `SELECT … WHERE event_type != 'UNDO' ORDER BY id DESC LIMIT ?`
fetch: newest-first non-UNDO events; SQLite treats a negative `LIMIT` as
unlimited. -/
def undoFetchRows (log : List (EventE MD)) (count : Int) : List (EventE MD) :=
  let eligible := (log.filter fun e => e.eventType ≠ EventTypeE.undo).reverse
  if count < 0 then eligible else eligible.take count.toNat

/-- `apply_undo_event(chat_id, user_id, username, count)`.  Returns the
updated store with the tuple `(undone_events, restored_state,
actual_count)`. -/
def applyUndoEvent (cid : Int) (st : StoreE MD) (userId : Int)
    (username : Option String) (count : Int) (now : Nat) :
    StoreE MD × List (EventE MD) × ChatStateE MD × Nat :=
  let rows := undoFetchRows st.log count
  match rows.getLast? with
  | none => (st, [], st.cache, 0)
  | some oldest =>
    let restored := ChatStateE.fromSnapshot cid oldest.snapshot
    let undoEv : EventE MD :=
      ⟨st.log.length, cid, EventTypeE.undo, userId, username, none, now,
       EvDetails.undone (rows.map (·.id)) rows.length, st.cache.toSnapshot⟩
    (⟨st.log ++ [undoEv], restored⟩, rows, restored, rows.length)

/-- `start_streak_if_needed(chat_id)`: sets `streak_start = now` in the
cached state — appending *no* occurrence to the log — when unset. -/
def startStreakIfNeeded (st : StoreE MD) (now : Nat) :
    StoreE MD × ChatStateE MD :=
  match st.cache.streakStart with
  | none =>
    let s' := { st.cache with streakStart := some now }
    (⟨st.log, s'⟩, s')
  | some _ => (st, st.cache)

/-- Stores reachable from a fresh chat through the four state-changing
operations of `db.py`. -/
inductive Reachable (cid : Int) : StoreE MD → Prop
  | init : Reachable cid (StoreE.init MD cid)
  | trig (st : StoreE MD) (uid : Int) (un : Option String) (mid : Nat)
      (md : MD) (now : Nat) : Reachable cid st →
      Reachable cid (applyTriggerEvent cid st uid un mid md now).1
  | manual (st : StoreE MD) (uid : Int) (un : Option String) (reason : String)
      (now : Nat) : Reachable cid st →
      Reachable cid (applyManualResetEvent cid st uid un reason now).1
  | undo (st : StoreE MD) (uid : Int) (un : Option String) (count : Int)
      (now : Nat) : Reachable cid st →
      Reachable cid (applyUndoEvent cid st uid un count now).1
  | startStreak (st : StoreE MD) (now : Nat) : Reachable cid st →
      Reachable cid (startStreakIfNeeded st now).1

/-- Stores reachable through the three *event-recording* operations only
(no `start_streak_if_needed`). -/
inductive ReachableNS (cid : Int) : StoreE MD → Prop
  | init : ReachableNS cid (StoreE.init MD cid)
  | trig (st : StoreE MD) (uid : Int) (un : Option String) (mid : Nat)
      (md : MD) (now : Nat) : ReachableNS cid st →
      ReachableNS cid (applyTriggerEvent cid st uid un mid md now).1
  | manual (st : StoreE MD) (uid : Int) (un : Option String) (reason : String)
      (now : Nat) : ReachableNS cid st →
      ReachableNS cid (applyManualResetEvent cid st uid un reason now).1
  | undo (st : StoreE MD) (uid : Int) (un : Option String) (count : Int)
      (now : Nat) : ReachableNS cid st →
      ReachableNS cid (applyUndoEvent cid st uid un count now).1

/-- One step of replaying the occurrence log from empty state: TRIGGER and
MANUAL_RESET apply the state transform recorded by the event; UNDO restores
the snapshot stored on the oldest event it names (looked up among the
already-replayed events). -/
def replayStep (cid : Int) (past : List (EventE MD)) (cur : ChatStateE MD)
    (e : EventE MD) : ChatStateE MD :=
  match e.eventType with
  | EventTypeE.trigger =>
    let oldStreak := cur.currentStreakSeconds e.timestamp
    ⟨cid, some e.timestamp,
     (if oldStreak > cur.bestStreakSeconds then oldStreak
      else cur.bestStreakSeconds),
     (if oldStreak > cur.bestStreakSeconds then cur.streakStart
      else cur.bestStreakStart),
     (if oldStreak > cur.bestStreakSeconds then some e.timestamp
      else cur.bestStreakEnd),
     some e.id, some e.userId, e.username, some e.timestamp,
     (match e.details with
      | EvDetails.trig md => some (ResetDetails.fromTrigger md)
      | _ => none),
     cur.totalResets + 1⟩
  | EventTypeE.manualReset =>
    let oldStreak := cur.currentStreakSeconds e.timestamp
    ⟨cid, some e.timestamp,
     (if oldStreak > cur.bestStreakSeconds then oldStreak
      else cur.bestStreakSeconds),
     (if oldStreak > cur.bestStreakSeconds then cur.streakStart
      else cur.bestStreakStart),
     (if oldStreak > cur.bestStreakSeconds then some e.timestamp
      else cur.bestStreakEnd),
     some e.id, some e.userId, e.username, some e.timestamp,
     (match e.details with
      | EvDetails.manual r => some (ResetDetails.manual r)
      | _ => none),
     cur.totalResets + 1⟩
  | EventTypeE.undo =>
    let ids := match e.details with
      | EvDetails.undone ids _ => ids
      | _ => []
    match ids.getLast? with
    | none => cur
    | some oldestId =>
      match past.find? (fun p => p.id = oldestId) with
      | none => cur
      | some oldest => ChatStateE.fromSnapshot cid oldest.snapshot

def replayGo (cid : Int) :
    ChatStateE MD → List (EventE MD) → List (EventE MD) → ChatStateE MD
  | cur, _, [] => cur
  | cur, past, e :: rest => replayGo cid (replayStep cid past cur e) (past ++ [e]) rest

/-- Fold the whole occurrence log from the empty/default state. -/
def replayLog (cid : Int) (log : List (EventE MD)) : ChatStateE MD :=
  replayGo cid (ChatStateE.defaultFor MD cid) [] log

/-- The operations of the round-trip property: a TRIGGER or MANUAL_RESET
occurrence with its inputs. -/
inductive OpDesc (MD : Type)
  | trig (uid : Int) (un : Option String) (mid : Nat) (md : MD) (now : Nat)
  | manual (uid : Int) (un : Option String) (reason : String) (now : Nat)

def applyOp (cid : Int) (st : StoreE MD) : OpDesc MD → StoreE MD
  | OpDesc.trig uid un mid md now => (applyTriggerEvent cid st uid un mid md now).1
  | OpDesc.manual uid un reason now =>
    (applyManualResetEvent cid st uid un reason now).1

def applyOps (cid : Int) (st : StoreE MD) (ops : List (OpDesc MD)) : StoreE MD :=
  ops.foldl (applyOp cid) st

/-! ## Theorems -/

lemma joinSpace_ne_empty (l : List String) (hne : l ≠ [])
    (hx : ∀ x ∈ l, x ≠ "") : joinSpace l ≠ "" := by
  match l with
  | [] => exact absurd rfl hne
  | [x] => simpa [joinSpace] using hx x (List.mem_singleton.mpr rfl)
  | x :: y :: rest =>
      have hxne : x ≠ "" := hx x (by simp)
      intro h
      apply hxne
      have h' : x ++ " " ++ joinSpace (y :: rest) = "" := h
      have : (x ++ " " ++ joinSpace (y :: rest)).data = ("" : String).data := by rw [h']
      simp only [String.data_append] at this
      rcases List.append_eq_nil.mp (List.append_eq_nil.mp this).1 with ⟨h1, _⟩
      exact String.ext h1

lemma suffix_ne_empty (a b : String) (hb : b.data ≠ []) : a ++ b ≠ "" := by
  intro h
  have : (a ++ b).data = ("" : String).data := by rw [h]
  simp only [String.data_append] at this
  exact hb (List.append_eq_nil.mp this).2

/-- C10 theorem. `format_duration` returns `"0 минут"` for non-positive
seconds; for `0 < s < 3600` it renders exactly the minutes component
`"N мин."` with `N = s // 60`; and the result is never the empty string. -/
theorem formatDuration_spec (s : Int) :
    (s ≤ 0 → formatDuration s = "0 минут") ∧
    (0 < s → s < 3600 → formatDuration s = toString (s.toNat / 60) ++ " мин.") ∧
    formatDuration s ≠ "" := by
  refine ⟨fun h => by simp [formatDuration, h], fun h1 h2 => ?_, ?_⟩
  · have hns : ¬ s ≤ 0 := not_le.mpr h1
    have hlt : s.toNat < 3600 := by omega
    have hd : s.toNat / 86400 = 0 := Nat.div_eq_of_lt (by omega)
    have hh : (s.toNat % 86400) / 3600 = 0 := by
      rw [Nat.mod_eq_of_lt (by omega)]
      exact Nat.div_eq_of_lt (by omega)
    have hm : s.toNat % 3600 = s.toNat := Nat.mod_eq_of_lt hlt
    simp [formatDuration, hns, hd, hh, hm, joinSpace]
  · by_cases h : s ≤ 0
    · simp only [formatDuration, if_pos h]
      intro hc
      have : ("0 минут" : String).data = ("" : String).data := by rw [hc]
      simp at this
    · simp only [formatDuration, if_neg h]
      apply joinSpace_ne_empty
      · -- the final list is nonempty: if nothing was appended earlier the
        -- `minutes > 0 or not parts` branch appends the minutes component
        by_cases hp : (if s.toNat / 86400 > 0 then [toString (s.toNat / 86400) ++ " дн."] else []) ++
            (if (s.toNat % 86400) / 3600 > 0 then [toString ((s.toNat % 86400) / 3600) ++ " ч."] else []) = []
        · simp [hp]
        · intro hcon
          exact hp (List.append_eq_nil.mp hcon).1
      · intro x hxmem
        -- every component ends in a nonempty literal suffix
        have : ∀ (k : Nat) (suf : String), suf.data ≠ [] →
            x = toString k ++ suf → x ≠ "" := by
          intro k suf hsuf hx
          rw [hx]; exact suffix_ne_empty _ _ hsuf
        simp only [List.mem_append] at hxmem
        rcases hxmem with hxm | hxm
        · rcases hxm with hxm1 | hxm1
          · by_cases hd : s.toNat / 86400 > 0
            · simp [hd] at hxm1
              exact this _ _ (by decide) hxm1
            · simp [hd] at hxm1
          · by_cases hh : (s.toNat % 86400) / 3600 > 0
            · simp [hh] at hxm1
              exact this _ _ (by decide) hxm1
            · simp [hh] at hxm1
        · split at hxm
          · simp at hxm
            exact this _ _ (by decide) hxm.2
          · simp at hxm
            exact this _ _ (by decide) hxm.2

/-- Witness for C10 at a concrete input: 125 seconds renders as "2 мин.". -/
theorem formatDuration_spec_witness :
    formatDuration 125 = toString ((125 : Int).toNat / 60) ++ " мин." :=
  (formatDuration_spec 125).2.1 (by decide) (by decide)

/-- C3 theorem (failing input). With lemmas `cat` and `cats` present and the
regex rules `cats_spaced` and `cat_spaced` stored, removing the lemma `cat`
also deletes `cats_spaced`, because the SQL `LIKE 'cat_%'` underscore is a
single-character wildcard — even though `cats_spaced` does not begin with the
literal prefix `cat_`.  Only the lemma `cats` survives. -/
theorem removeTriggerLemma_deletes_unrelated_rule :
    (removeTriggerLemma
        [⟨TriggerType.lemmaT, "cat", true⟩, ⟨TriggerType.lemmaT, "cats", true⟩,
         ⟨TriggerType.regexT, "cats_spaced", true⟩,
         ⟨TriggerType.regexT, "cat_spaced", true⟩] "cat") =
      ([⟨TriggerType.lemmaT, "cats", true⟩], true) ∧
    "cat_".data.isPrefixOf "cats_spaced".data = false := by
  constructor
  · rfl
  · rfl


lemma mem_insertByPos (a m : MatchDetail) (l : List MatchDetail) :
    a ∈ insertByPos m l ↔ a = m ∨ a ∈ l := by
  induction l with
  | nil => simp [insertByPos]
  | cons x xs ih =>
      simp only [insertByPos]
      split
      · simp only [List.mem_cons, ih]; tauto
      · simp only [List.mem_cons]

lemma insertByPos_pairwise (m : MatchDetail) (l : List MatchDetail)
    (h : l.Pairwise (fun a b => a.positionStart ≤ b.positionStart)) :
    (insertByPos m l).Pairwise (fun a b => a.positionStart ≤ b.positionStart) := by
  induction l with
  | nil => simp [insertByPos]
  | cons x xs ih =>
      rcases List.pairwise_cons.mp h with ⟨hx, hxs⟩
      simp only [insertByPos]
      split
      · refine List.pairwise_cons.mpr ⟨?_, ih hxs⟩
        intro b hb
        rcases (mem_insertByPos b m xs).mp hb with rfl | hbx
        · assumption
        · exact hx b hbx
      · refine List.pairwise_cons.mpr ⟨?_, h⟩
        intro b hb
        rcases List.mem_cons.mp hb with rfl | hbx
        · omega
        · have := hx b hbx
          omega

lemma foldl_insertByPos_pairwise (l : List MatchDetail) :
    ∀ acc : List MatchDetail,
      acc.Pairwise (fun a b => a.positionStart ≤ b.positionStart) →
      (l.foldl (fun acc m => insertByPos m acc) acc).Pairwise
        (fun a b => a.positionStart ≤ b.positionStart) := by
  induction l with
  | nil => intro acc h; simpa using h
  | cons x xs ih => intro acc h; exact ih _ (insertByPos_pairwise x acc h)

lemma sortByPos_pairwise (l : List MatchDetail) :
    (sortByPos l).Pairwise (fun a b => a.positionStart ≤ b.positionStart) :=
  foldl_insertByPos_pairwise l [] List.Pairwise.nil

lemma mem_foldl_insertByPos (l : List MatchDetail) :
    ∀ (acc : List MatchDetail) (a : MatchDetail),
      a ∈ l.foldl (fun acc m => insertByPos m acc) acc ↔ a ∈ acc ∨ a ∈ l := by
  induction l with
  | nil => simp
  | cons x xs ih =>
      intro acc a
      simp only [List.foldl_cons]
      rw [ih, mem_insertByPos]
      simp
      tauto

lemma mem_sortByPos (l : List MatchDetail) (a : MatchDetail) :
    a ∈ sortByPos l ↔ a ∈ l := by
  rw [sortByPos, mem_foldl_insertByPos]
  simp

lemma sortByPos_nil_iff (l : List MatchDetail) :
    sortByPos l = [] ↔ l = [] := by
  constructor
  · intro h
    by_contra hne
    rcases List.exists_mem_of_ne_nil l hne with ⟨a, ha⟩
    have := (mem_sortByPos l a).mpr ha
    rw [h] at this
    exact absurd this (List.not_mem_nil a)
  · intro h
    subst h
    rfl

lemma detectByLemmas_matchType (g : String → String) (text : String)
    (lemmas : List String) :
    ∀ m ∈ detectByLemmas g text lemmas, m.matchType = MatchTypeM.lemmaM := by
  intro m hm
  rcases List.mem_filterMap.mp hm with ⟨t, _, ht⟩
  by_cases h : g t.1 ∈ lemmas
  · simp only [detectByLemmas, h, if_pos] at ht
    have := Option.some.inj ht
    rw [← this]
  · simp [h] at ht


/-- C5 amended theorem. The `quotation` rule is tried first, so whenever the
quotation matcher (straight quotes, apostrophes and guillemets — the class
`["'«»]`, with a word run within 100 newline-free characters of each quote
character) fires on the normalized message, `check_exclusions` reports
`excluded = true` with reason `"quotation"`, before any lemma/regex work. -/
theorem checkExclusions_quotation_first (text : String)
    (h : quotationMatch (normalizeText text).data = true) :
    checkExclusions text = (true, some "quotation") := by
  simp [checkExclusions, checkExclusionsGo, exclusionPatterns, h]

/-- Witness for C5's amended theorem: the spec's own example with straight
quotes, `"he said \"test\" loudly"`, is excluded as a quotation. -/
theorem checkExclusions_quotation_first_witness :
    checkExclusions "he said \"test\" loudly" = (true, some "quotation") :=
  checkExclusions_quotation_first _ (by decide)

/-- C5 counterexample. A message holding a word in *curly* quotes is not
excluded at all: the quotation class `["'«»]` has no curly-quote
characters, so the claim's "covers straight, curly, and guillemet quote
pairs" fails on curly quotes. -/
theorem checkExclusions_curly_quotes_not_covered :
    checkExclusions "he said “test” loudly" = (false, none) := by
  decide

/-- C4 theorem (failing input). On the message `" Test"` (leading space), the
regex layer scans the normalized text `"test"` and records the span `(0, 4)`,
but slices `original_text` out of the *original* message with those offsets:
the recorded `original_text` is `" Tes"`, which does not correspond to the
matched fragment `"test"` (its lowercasing differs), so the span is not a
span into the original message. -/
theorem detectByRegex_offsets_shifted_by_strip :
    detectByRegex finderSpacedTest " Test" [("test_spaced", true)] =
      [⟨MatchTypeM.regexM, " Tes", "test", none, some "test_spaced", 0, 4⟩] ∧
    lowerStr " Tes" ≠ "test" := by
  constructor
  · decide
  · decide

/-- C7 theorem. In `detect_triggers` (outside the early-exit branches), the
merged match list is sorted ascending by start offset, `triggered` holds iff
it is non-empty, every lemma-layer match appears in it, and no regex-typed
match in it shares its exact `(start, end)` span with any lemma-layer match
(the regex duplicate is discarded; the lemma match survives). -/
theorem detectTriggers_merge_spec (g : String → String)
    (f : String → String → List (Nat × Nat)) (text : String)
    (lemmas : List String) (rules : List (String × Bool))
    (hne : ¬(text.data = [] ∨ stripL text.data = []))
    (hex : (checkExclusions text).1 = false) :
    (detectTriggers g f text lemmas rules).matchesL.Pairwise
        (fun a b => a.positionStart ≤ b.positionStart) ∧
    ((detectTriggers g f text lemmas rules).triggered = true ↔
        (detectTriggers g f text lemmas rules).matchesL ≠ []) ∧
    (∀ lm ∈ detectByLemmas g text lemmas,
        lm ∈ (detectTriggers g f text lemmas rules).matchesL) ∧
    (∀ m ∈ (detectTriggers g f text lemmas rules).matchesL,
        m.matchType = MatchTypeM.regexM →
        ∀ lm ∈ detectByLemmas g text lemmas,
          ¬(lm.positionStart = m.positionStart ∧
            lm.positionEnd = m.positionEnd)) := by
  have hres : detectTriggers g f text lemmas rules =
      ⟨!(sortByPos (detectByLemmas g text lemmas ++
          (detectByRegex f text rules).filter fun rm =>
            (rm.positionStart, rm.positionEnd) ∉
              (detectByLemmas g text lemmas).map fun m =>
                (m.positionStart, m.positionEnd))).isEmpty,
        sortByPos (detectByLemmas g text lemmas ++
          (detectByRegex f text rules).filter fun rm =>
            (rm.positionStart, rm.positionEnd) ∉
              (detectByLemmas g text lemmas).map fun m =>
                (m.positionStart, m.positionEnd)),
        false, none⟩ := by
    rw [detectTriggers, if_neg hne]
    simp only [hex, Bool.false_eq_true, if_false]
  rw [hres]
  refine ⟨sortByPos_pairwise _, ?_, ?_, ?_⟩
  · simp [List.isEmpty_iff]
  · intro lm hlm
    rw [mem_sortByPos]
    exact List.mem_append_left _ hlm
  · intro m hm hreg lm hlm hspan
    rw [mem_sortByPos] at hm
    rcases List.mem_append.mp hm with hmL | hmR
    · have := detectByLemmas_matchType g text lemmas m hmL
      rw [hreg] at this
      exact MatchTypeM.noConfusion this
    · have hfil := (List.mem_filter.mp hmR).2
      have hmem : (m.positionStart, m.positionEnd) ∈
          (detectByLemmas g text lemmas).map fun x =>
            (x.positionStart, x.positionEnd) := by
        refine List.mem_map.mpr ⟨lm, hlm, ?_⟩
        rw [hspan.1, hspan.2]
      rw [decide_eq_true_iff] at hfil
      exact hfil hmem

/-- Witness for C7 at concrete inputs (identity lemmatizer, no regex rules,
plain text). -/
theorem detectTriggers_merge_spec_witness :
    (detectTriggers id (fun _ _ => []) "abc" [] []).triggered = true ↔
      (detectTriggers id (fun _ _ => []) "abc" [] []).matchesL ≠ [] :=
  (detectTriggers_merge_spec id (fun _ _ => []) "abc" [] []
    (by decide) (by decide)).2.1


lemma string_mk_data (w : String) : String.mk w.data = w := by
  cases w
  rfl

lemma append_right_ne (w : String) {a b : String} (h : a ≠ b) :
    w ++ a ≠ w ++ b := by
  intro he
  apply h
  have hd := congrArg String.data he
  rw [String.data_append, String.data_append] at hd
  exact String.ext (List.append_cancel_left hd)

lemma dropWhile_append_all {p : Char → Bool} (l r : List Char)
    (h : ∀ c ∈ l, p c = true) :
    (l ++ r).dropWhile p = r.dropWhile p := by
  rw [List.dropWhile_append]
  have hl : l.dropWhile p = [] := by
    rw [List.dropWhile_eq_nil_iff]
    exact h
  simp [hl]

/-- Splitting on the last separator undoes appending `'_' :: t` when the
tail `t` holds no separator. -/
lemma rsplitBase_concat (w t : List Char) (ht : ∀ c ∈ t, c ≠ '_') :
    rsplitBaseUnderscore (w ++ '_' :: t) = w := by
  unfold rsplitBaseUnderscore
  rw [List.reverse_append, List.reverse_cons, List.append_assoc]
  rw [dropWhile_append_all]
  · have : List.dropWhile (fun c => decide (c ≠ '_')) (['_'] ++ w.reverse) =
        '_' :: w.reverse := by
      simp [List.dropWhile]
    rw [this]
    simp
  · intro c hc
    simp only [decide_eq_true_eq]
    exact ht c (List.mem_reverse.mp hc)

lemma mem_genTranslitPart_name {w : String} {v : RuleVariant}
    (h : v ∈ genTranslitPart w) :
    v.name = w ++ "_translit_en" ∨ v.name = w ++ "_translit_ru" := by
  simp only [genTranslitPart] at h
  split at h
  · split at h
    · left
      rcases List.mem_singleton.mp h with rfl
      rfl
    · exact absurd h (List.not_mem_nil v)
  · split at h
    · right
      rcases List.mem_singleton.mp h with rfl
      rfl
    · exact absurd h (List.not_mem_nil v)

lemma mem_genLookalikePart_eq {w : String} {v : RuleVariant}
    (h : v ∈ genLookalikePart w) :
    genLookalikePart w = [v] ∧ v.name = w ++ "_lookalike" := by
  simp only [genLookalikePart] at h ⊢
  split at h
  · rcases List.mem_singleton.mp h with rfl
    simp [*]
  · exact absurd h (List.not_mem_nil v)

lemma mem_genDiacriticsPart_eq {w : String} {v : RuleVariant}
    (h : v ∈ genDiacriticsPart w) :
    genDiacriticsPart w = [v] ∧ v.name = w ++ "_diacritics" := by
  simp only [genDiacriticsPart] at h ⊢
  split at h
  · rcases List.mem_singleton.mp h with rfl
    simp [*]
  · exact absurd h (List.not_mem_nil v)

lemma mem_genMultimodalPart_name {w : String} {v : RuleVariant}
    (h : v ∈ genMultimodalPart w) :
    v.name = w ++ "_translit_spaced" ∨ v.name = w ++ "_translit_zerowidth" := by
  simp only [genMultimodalPart] at h
  split at h
  · rcases List.mem_cons.mp h with rfl | h2
    · left; rfl
    · rcases List.mem_singleton.mp h2 with rfl
      right; rfl
  · exact absurd h (List.not_mem_nil v)

lemma find?_name_none {n : String} {l : List RuleVariant}
    (hl : ∀ v ∈ l, v.name ≠ n) :
    l.find? (fun v => v.name = n) = none :=
  List.find?_eq_none.mpr fun x hx h => hl x hx (of_decide_eq_true h)

/-- The expansion of `generate_regex_variants_for_word` on an
already-normalized word of length ≥ 3. -/
lemma generate_eq_parts (w : String) (h1 : stripStr (lowerStr w) = w)
    (h2 : 3 ≤ w.data.length) :
    generateRegexVariantsForWord w =
      genTranslitPart w ++ genLookalikePart w ++
        [genSpacedVariant w, genZerowidthVariant w] ++
        genDiacriticsPart w ++ genMultimodalPart w := by
  simp only [generateRegexVariantsForWord, h1]
  rw [if_neg (by omega)]

/-- `get_compiled_pattern` evaluated on a rule name of the form
`{w}_{suffix}` with no separator inside `suffix`: the last-separator split
recovers `w` and the compiler looks the name up in `w`'s own variants. -/
lemma getCompiledPattern_append (w suffix : String)
    (hsuf : ∃ t : List Char, suffix.data = '_' :: t ∧ ∀ c ∈ t, c ≠ '_') :
    getCompiledPattern (w ++ suffix) =
      match (generateRegexVariantsForWord w).find?
          (fun v => v.name = w ++ suffix) with
      | some v => some v.pattern
      | none => none := by
  rcases hsuf with ⟨t, hts, ht⟩
  have hmem : '_' ∈ (w ++ suffix).data := by
    rw [String.data_append, hts]
    exact List.mem_append_right _ (List.mem_cons_self _ _)
  have hsplit : rsplitBaseUnderscore (w ++ suffix).data = w.data := by
    rw [String.data_append, hts]
    exact rsplitBase_concat w.data t ht
  simp only [getCompiledPattern, if_pos hmem, hsplit, string_mk_data]

/-- C1 amended theorem.  For every normalized word of length ≥ 3 the
always-emitted `{word}_spaced` and `{word}_zerowidth` variants are in the
generated list, and `get_compiled_pattern` on their rule names recovers the
base word, finds the entry and returns exactly its emitted pattern spec;
the same holds for the conditional `{word}_lookalike` and
`{word}_diacritics` variants whenever they are emitted.  (The
`_translit_en`/`_translit_ru` names are *not* recovered this way — see the
counterexample theorem: the last-separator split produces
`{word}_translit`.) -/
theorem getCompiledPattern_recovers_plain_kinds (w : String)
    (h1 : stripStr (lowerStr w) = w) (h2 : 3 ≤ w.data.length) :
    (genSpacedVariant w ∈ generateRegexVariantsForWord w ∧
      getCompiledPattern (w ++ "_spaced") = some (genSpacedVariant w).pattern) ∧
    (genZerowidthVariant w ∈ generateRegexVariantsForWord w ∧
      getCompiledPattern (w ++ "_zerowidth") =
        some (genZerowidthVariant w).pattern) ∧
    (∀ v ∈ genLookalikePart w,
      getCompiledPattern (w ++ "_lookalike") = some v.pattern) ∧
    (∀ v ∈ genDiacriticsPart w,
      getCompiledPattern (w ++ "_diacritics") = some v.pattern) := by
  have hgen := generate_eq_parts w h1 h2
  refine ⟨⟨?_, ?_⟩, ⟨?_, ?_⟩, ?_, ?_⟩
  · rw [hgen]
    refine List.mem_append_left _ (List.mem_append_left _ ?_)
    exact List.mem_append_right _ (by simp)
  · rw [getCompiledPattern_append w "_spaced" ⟨"spaced".data, rfl, by decide⟩,
      hgen]
    have hA : (genTranslitPart w).find?
        (fun v => v.name = w ++ "_spaced") = none := by
      refine find?_name_none fun v hv => ?_
      rcases mem_genTranslitPart_name hv with h | h <;> rw [h] <;>
        exact append_right_ne w (by decide)
    have hB : (genLookalikePart w).find?
        (fun v => v.name = w ++ "_spaced") = none := by
      refine find?_name_none fun v hv => ?_
      rw [(mem_genLookalikePart_eq hv).2]
      exact append_right_ne w (by decide)
    have hsp : ([genSpacedVariant w, genZerowidthVariant w]).find?
        (fun v => v.name = w ++ "_spaced") = some (genSpacedVariant w) :=
      List.find?_cons_of_pos _ (by simp [genSpacedVariant])
    simp only [List.find?_append, hA, hB, hsp, Option.none_or]
    rfl
  · rw [hgen]
    refine List.mem_append_left _ (List.mem_append_left _ ?_)
    exact List.mem_append_right _ (by simp)
  · rw [getCompiledPattern_append w "_zerowidth"
      ⟨"zerowidth".data, rfl, by decide⟩, hgen]
    have hA : (genTranslitPart w).find?
        (fun v => v.name = w ++ "_zerowidth") = none := by
      refine find?_name_none fun v hv => ?_
      rcases mem_genTranslitPart_name hv with h | h <;> rw [h] <;>
        exact append_right_ne w (by decide)
    have hB : (genLookalikePart w).find?
        (fun v => v.name = w ++ "_zerowidth") = none := by
      refine find?_name_none fun v hv => ?_
      rw [(mem_genLookalikePart_eq hv).2]
      exact append_right_ne w (by decide)
    have hsp : ([genSpacedVariant w, genZerowidthVariant w]).find?
        (fun v => v.name = w ++ "_zerowidth") = some (genZerowidthVariant w) := by
      rw [List.find?_cons_of_neg _ (by
        simp only [genSpacedVariant, decide_eq_true_eq]
        exact append_right_ne w (by decide))]
      exact List.find?_cons_of_pos _ (by simp [genZerowidthVariant])
    simp only [List.find?_append, hA, hB, hsp, Option.none_or]
    rfl
  · intro v hv
    rcases mem_genLookalikePart_eq hv with ⟨hpart, hname⟩
    rw [getCompiledPattern_append w "_lookalike"
      ⟨"lookalike".data, rfl, by decide⟩, hgen]
    have hA : (genTranslitPart w).find?
        (fun x => x.name = w ++ "_lookalike") = none := by
      refine find?_name_none fun x hx => ?_
      rcases mem_genTranslitPart_name hx with h | h <;> rw [h] <;>
        exact append_right_ne w (by decide)
    have hB : (genLookalikePart w).find?
        (fun x => x.name = w ++ "_lookalike") = some v := by
      rw [hpart]
      exact List.find?_cons_of_pos _ (by simp [hname])
    simp only [List.find?_append, hA, hB, Option.none_or]
    rfl
  · intro v hv
    rcases mem_genDiacriticsPart_eq hv with ⟨hpart, hname⟩
    rw [getCompiledPattern_append w "_diacritics"
      ⟨"diacritics".data, rfl, by decide⟩, hgen]
    have hA : (genTranslitPart w).find?
        (fun x => x.name = w ++ "_diacritics") = none := by
      refine find?_name_none fun x hx => ?_
      rcases mem_genTranslitPart_name hx with h | h <;> rw [h] <;>
        exact append_right_ne w (by decide)
    have hB : (genLookalikePart w).find?
        (fun x => x.name = w ++ "_diacritics") = none := by
      refine find?_name_none fun x hx => ?_
      rw [(mem_genLookalikePart_eq hx).2]
      exact append_right_ne w (by decide)
    have hsp : ([genSpacedVariant w, genZerowidthVariant w]).find?
        (fun x => x.name = w ++ "_diacritics") = none := by
      refine find?_name_none fun x hx => ?_
      rcases List.mem_cons.mp hx with rfl | hx2
      · simp only [genSpacedVariant]
        exact append_right_ne w (by decide)
      · rcases List.mem_singleton.mp hx2 with rfl
        simp only [genZerowidthVariant]
        exact append_right_ne w (by decide)
    have hD : (genDiacriticsPart w).find?
        (fun x => x.name = w ++ "_diacritics") = some v := by
      rw [hpart]
      exact List.find?_cons_of_pos _ (by simp [hname])
    simp only [List.find?_append, hA, hB, hsp, hD, Option.none_or]
    rfl

/-- Witness for C1's amended theorem at `w = "cat"`: the `cat_spaced` rule
name compiles back to the emitted spaced pattern. -/
theorem getCompiledPattern_recovers_plain_kinds_witness :
    genSpacedVariant "cat" ∈ generateRegexVariantsForWord "cat" ∧
      getCompiledPattern ("cat" ++ "_spaced") =
        some (genSpacedVariant "cat").pattern :=
  (getCompiledPattern_recovers_plain_kinds "cat" (by decide) (by decide)).1

/-- C1 counterexample.  The generator emits a `cat_translit_ru` variant for
the word `cat`, but `get_compiled_pattern("cat_translit_ru")` splits on the
*last* separator, recovering the bogus base word `cat_translit`; none of
that word's regenerated variants is named `cat_translit_ru`, so the
compiler returns absent — refuting the claim that every emitted rule name
yields a matcher. -/
theorem getCompiledPattern_translit_rule_absent :
    "cat_translit_ru" ∈ (generateRegexVariantsForWord "cat").map (·.name) ∧
    getCompiledPattern "cat_translit_ru" = none := by
  constructor
  · decide
  · decide

/-- C9 theorem.  Words whose lowercased, trimmed form is under 3 characters
generate no variants; `generate("cat")` is non-empty and contains both a
`cat_lookalike` and a `cat_spaced` variant. -/
theorem generate_short_word_guard :
    (∀ word : String, (stripStr (lowerStr word)).data.length < 3 →
        generateRegexVariantsForWord word = []) ∧
    "cat_lookalike" ∈ (generateRegexVariantsForWord "cat").map (·.name) ∧
    "cat_spaced" ∈ (generateRegexVariantsForWord "cat").map (·.name) ∧
    generateRegexVariantsForWord "cat" ≠ [] := by
  refine ⟨?_, by decide, by decide, by decide⟩
  intro word h
  simp only [generateRegexVariantsForWord]
  rw [if_pos h]

/-- Witness for C9 at the spec's own example: `generate("ab")` is empty. -/
theorem generate_short_word_guard_witness :
    generateRegexVariantsForWord "ab" = [] :=
  generate_short_word_guard.1 "ab" (by decide)


/-- Restoring a state's own snapshot with its own chat id is the identity. -/
lemma fromSnapshot_toSnapshot {MD : Type} (s : ChatStateE MD) :
    ChatStateE.fromSnapshot s.chatId s.toSnapshot = s := rfl

/-- C8 theorem.  When the chat's log holds no TRIGGER or MANUAL_RESET
occurrence, `apply_undo_event` with any requested count is a no-op: it
returns the empty undone list, the unchanged cached state and an actual
count of zero, and appends no UNDO occurrence. -/
theorem applyUndo_empty_history {MD : Type} (cid : Int) (s : StoreE MD)
    (uid : Int) (un : Option String) (count : Int) (now : Nat)
    (h : ∀ e ∈ s.log, e.eventType = EventTypeE.undo) :
    applyUndoEvent cid s uid un count now = (s, [], s.cache, 0) := by
  have hfil : s.log.filter (fun e => !decide (e.eventType = EventTypeE.undo)) = [] := by
    rw [List.filter_eq_nil_iff]
    intro e he
    simp [h e he]
  simp [applyUndoEvent, undoFetchRows, hfil]

/-- Witness for C8: undoing on a fresh chat (empty log) is a no-op. -/
theorem applyUndo_empty_history_witness :
    applyUndoEvent 0 (StoreE.init Nat 0) 1 none 3 50 =
      (StoreE.init Nat 0, [], (StoreE.init Nat 0).cache, 0) :=
  applyUndo_empty_history 0 (StoreE.init Nat 0) 1 none 3 50
    (by intro e he; exact absurd he (List.not_mem_nil e))

/-- C2 counterexample.  Two reachable stores with the *same* occurrence log
but different cached states: `start_streak_if_needed` sets the cached
`streak_start` without appending any occurrence, so the cached ChatState is
not a pure function of the occurrence log and cannot always be recomputed
by replay alone. -/
theorem cache_not_pure_function_of_log :
    ∃ s1 s2 : StoreE Nat, Reachable 0 s1 ∧ Reachable 0 s2 ∧
      s1.log = s2.log ∧ s1.cache ≠ s2.cache := by
  refine ⟨StoreE.init Nat 0, (startStreakIfNeeded (StoreE.init Nat 0) 5).1,
    Reachable.init, Reachable.startStreak _ 5 Reachable.init, rfl, ?_⟩
  decide

lemma replayGo_append {MD : Type} (cid : Int) (l1 l2 : List (EventE MD)) :
    ∀ (cur : ChatStateE MD) (past : List (EventE MD)),
      replayGo cid cur past (l1 ++ l2) =
        replayGo cid (replayGo cid cur past l1) (past ++ l1) l2 := by
  induction l1 with
  | nil => intro cur past; simp [replayGo]
  | cons e rest ih =>
      intro cur past
      simp only [List.cons_append, replayGo, List.append_eq]
      rw [ih]
      simp [List.append_assoc]

lemma replayLog_snoc {MD : Type} (cid : Int) (log : List (EventE MD))
    (e : EventE MD) :
    replayLog cid (log ++ [e]) = replayStep cid log (replayLog cid log) e := by
  unfold replayLog
  rw [replayGo_append]
  simp [replayGo]

lemma find?_id_of_nodup {MD : Type} {log : List (EventE MD)}
    (hnd : (log.map (·.id)).Nodup) {e : EventE MD} (he : e ∈ log) :
    log.find? (fun p => p.id = e.id) = some e := by
  induction log with
  | nil => exact absurd he (List.not_mem_nil e)
  | cons x rest ih =>
      rcases List.mem_cons.mp he with rfl | hrest
      · exact List.find?_cons_of_pos _ (by simp)
      · have hx : x.id ≠ e.id := by
          intro hxe
          have hmem : e.id ∈ rest.map (·.id) := List.mem_map.mpr ⟨e, hrest, rfl⟩
          have hnotin := (List.nodup_cons.mp hnd).1
          apply hnotin
          show x.id ∈ rest.map (·.id)
          rw [hxe]
          exact hmem
        rw [List.find?_cons_of_neg _ (by simp [hx])]
        exact ih (List.nodup_cons.mp hnd).2 hrest

lemma mem_undoFetchRows {MD : Type} {log : List (EventE MD)} {count : Int}
    {e : EventE MD} (he : e ∈ undoFetchRows log count) : e ∈ log := by
  unfold undoFetchRows at he
  split at he
  · exact (List.mem_filter.mp (List.mem_reverse.mp he)).1
  · exact (List.mem_filter.mp (List.mem_reverse.mp (List.mem_of_mem_take he))).1

/-- The replay invariant: event ids are the dense sequence of log
positions, and the cached state is the fold of the log from default. -/
lemma reachableNS_invariant {MD : Type} (cid : Int) (s : StoreE MD)
    (h : ReachableNS cid s) :
    s.log.map (·.id) = List.range s.log.length ∧
      s.cache = replayLog cid s.log := by
  induction h with
  | init => exact ⟨rfl, rfl⟩
  | trig st uid un mid md now hst ih =>
      obtain ⟨hids, hcache⟩ := ih
      constructor
      · simp only [applyTriggerEvent, List.map_append, List.length_append,
          List.map_cons, List.map_nil, List.length_cons, List.length_nil]
        rw [hids, List.range_succ]
      · show _ = replayLog cid (st.log ++ [_])
        rw [replayLog_snoc, ← hcache]
        rfl
  | manual st uid un reason now hst ih =>
      obtain ⟨hids, hcache⟩ := ih
      constructor
      · simp only [applyManualResetEvent, List.map_append, List.length_append,
          List.map_cons, List.map_nil, List.length_cons, List.length_nil]
        rw [hids, List.range_succ]
      · show _ = replayLog cid (st.log ++ [_])
        rw [replayLog_snoc, ← hcache]
        rfl
  | undo st uid un count now hst ih =>
      obtain ⟨hids, hcache⟩ := ih
      rcases hrows : (undoFetchRows st.log count).getLast? with _ | oldest
      · have hsame : (applyUndoEvent cid st uid un count now).1 = st := by
          simp only [applyUndoEvent, hrows]
        rw [hsame]
        exact ⟨hids, hcache⟩
      · have holdmem : oldest ∈ st.log :=
          mem_undoFetchRows (List.mem_of_mem_getLast? hrows)
        have hnd : (st.log.map (·.id)).Nodup := by
          rw [hids]; exact List.nodup_range _
        have hst1 : (applyUndoEvent cid st uid un count now).1 =
            ⟨st.log ++
              [⟨st.log.length, cid, EventTypeE.undo, uid, un, none, now,
                EvDetails.undone ((undoFetchRows st.log count).map (·.id))
                  (undoFetchRows st.log count).length,
                st.cache.toSnapshot⟩],
             ChatStateE.fromSnapshot cid oldest.snapshot⟩ := by
          simp only [applyUndoEvent, hrows]
        rw [hst1]
        constructor
        · simp only [List.map_append, List.length_append, List.map_cons,
            List.map_nil, List.length_cons, List.length_nil]
          rw [hids, List.range_succ]
        · rw [replayLog_snoc, ← hcache]
          show ChatStateE.fromSnapshot cid oldest.snapshot = replayStep _ _ _ _
          unfold replayStep
          simp only [List.getLast?_map, hrows]
          show ChatStateE.fromSnapshot cid oldest.snapshot =
            match List.find? (fun p => p.id = oldest.id) st.log with
            | none => st.cache
            | some o => ChatStateE.fromSnapshot cid o.snapshot
          rw [find?_id_of_nodup hnd holdmem]

/-- C2 amended theorem.  For every store reachable through the
event-recording operations only (TRIGGER, MANUAL_RESET, UNDO — without
`start_streak_if_needed`), the cached ChatState is exactly the fold of the
chat's occurrence log from the default state, so it can be recomputed by
replay alone; the counterexample shows `start_streak_if_needed` breaks this
for general reachable stores. -/
theorem cache_reconstructible_by_replay {MD : Type} (cid : Int)
    (s : StoreE MD) (h : ReachableNS cid s) :
    s.cache = replayLog cid s.log :=
  (reachableNS_invariant cid s h).2

/-- Witness for C2's amended theorem: a fresh chat, one trigger applied;
the cache equals the replay of the one-event log. -/
theorem cache_reconstructible_by_replay_witness :
    (applyTriggerEvent 0 (StoreE.init Nat 0) 7 none 11 42 100).1.cache =
      replayLog 0 (applyTriggerEvent 0 (StoreE.init Nat 0) 7 none 11 42 100).1.log :=
  cache_reconstructible_by_replay 0 _
    (ReachableNS.trig _ 7 none 11 42 100 ReachableNS.init)

lemma applyOps_log_decomp {MD : Type} (cid : Int) (ops : List (OpDesc MD)) :
    ∀ s0 : StoreE MD, ∃ evs : List (EventE MD),
      (applyOps cid s0 ops).log = s0.log ++ evs ∧
      evs.length = ops.length ∧
      (∀ e ∈ evs, e.eventType ≠ EventTypeE.undo) ∧
      (∀ e, evs.head? = some e → e.snapshot = s0.cache.toSnapshot) := by
  induction ops with
  | nil =>
      intro s0
      exact ⟨[], by simp [applyOps], rfl, by simp, by simp⟩
  | cons op rest ih =>
      intro s0
      obtain ⟨evs', h1, h2, h3, h4⟩ := ih (applyOp cid s0 op)
      have he1 : ∃ e1 : EventE MD, (applyOp cid s0 op).log = s0.log ++ [e1] ∧
          e1.eventType ≠ EventTypeE.undo ∧
          e1.snapshot = s0.cache.toSnapshot := by
        cases op with
        | trig uid un mid md now =>
            exact ⟨_, rfl, by simp [applyOp, applyTriggerEvent], rfl⟩
        | manual uid un reason now =>
            exact ⟨_, rfl, by simp [applyOp, applyManualResetEvent], rfl⟩
      obtain ⟨e1, hlog1, htype1, hsnap1⟩ := he1
      refine ⟨e1 :: evs', ?_, ?_, ?_, ?_⟩
      · have hfold : applyOps cid s0 (op :: rest) =
            applyOps cid (applyOp cid s0 op) rest := rfl
        rw [hfold, h1, hlog1]
        simp
      · simp [h2]
      · intro e he
        rcases List.mem_cons.mp he with rfl | hm
        · exact htype1
        · exact h3 e hm
      · intro e hh
        have : e = e1 := by
          simpa using hh.symm
        rw [this]
        exact hsnap1

/-- C6 theorem.  Applying any non-empty sequence of N TRIGGER/MANUAL_RESET
occurrences and then `apply_undo_event` with `count = N` restores exactly
the ChatState from immediately before the first of them (the snapshot on
the oldest undone occurrence): the returned restored state, the newly
cached state, and the actual count are `s0.cache`, `s0.cache`, and `N`. -/
theorem undo_round_trip {MD : Type} (cid : Int) (s0 : StoreE MD)
    (ops : List (OpDesc MD)) (uid : Int) (un : Option String) (now : Nat)
    (hne : ops ≠ []) (hcid : s0.cache.chatId = cid) :
    (applyUndoEvent cid (applyOps cid s0 ops) uid un (ops.length : Int)
        now).2.2.1 = s0.cache ∧
    (applyUndoEvent cid (applyOps cid s0 ops) uid un (ops.length : Int)
        now).1.cache = s0.cache ∧
    (applyUndoEvent cid (applyOps cid s0 ops) uid un (ops.length : Int)
        now).2.2.2 = ops.length := by
  obtain ⟨evs, hlog, hlen, hnundo, hhead⟩ := applyOps_log_decomp cid ops s0
  have hrows : undoFetchRows (applyOps cid s0 ops).log ((ops.length : Int)) =
      evs.reverse := by
    unfold undoFetchRows
    rw [hlog, List.filter_append]
    have hf0 : evs.filter (fun e => e.eventType ≠ EventTypeE.undo) = evs :=
      List.filter_eq_self.mpr fun e he => by simp [hnundo e he]
    rw [hf0, List.reverse_append]
    rw [if_neg (by omega)]
    have hcnt : ((ops.length : Int)).toNat = evs.reverse.length := by
      rw [Int.toNat_ofNat, List.length_reverse, hlen]
    rw [hcnt, List.take_left]
  have hevs_ne : evs ≠ [] := by
    intro hnil
    rw [hnil] at hlen
    exact hne (List.length_eq_zero.mp hlen.symm)
  obtain ⟨e1, evs', rfl⟩ := List.exists_cons_of_ne_nil hevs_ne
  have hsnap := hhead e1 rfl
  have hlast : ((e1 :: evs').reverse).getLast? = some e1 := by
    rw [List.getLast?_reverse]
    rfl
  have hres : ChatStateE.fromSnapshot cid e1.snapshot = s0.cache := by
    rw [hsnap, ← hcid]
    exact fromSnapshot_toSnapshot s0.cache
  simp only [applyUndoEvent, hrows, hlast]
  exact ⟨hres, hres, by rw [List.length_reverse, hlen]⟩

/-- Witness for C6: one trigger on a fresh chat, then `undo(1)`, restores
the default state. -/
theorem undo_round_trip_witness :
    (applyUndoEvent 0 (applyOps 0 (StoreE.init Nat 0) [OpDesc.trig 1 none 10 0 100])
        2 none (1 : Int) 200).2.2.1 = (StoreE.init Nat 0).cache :=
  (undo_round_trip 0 (StoreE.init Nat 0) [OpDesc.trig 1 none 10 0 100] 2 none 200
    (by simp) rfl).1

end GigachatBot
